import Mathlib

/-!
Verification of the career-navigator report/dashboard layer.

This file gives a shallow embedding, in Lean 4, of the parts of the
repository that the specification talks about:

* the web dashboard data fetchers (`getCompanyReports`, `getReports`,
  `getCompanies`, `getJobs`, `getTrendsData`) over the Supabase tables,
  with query semantics (filter / order / range / limit) made explicit
  over in-memory lists of rows;
* the presentation helpers `getVerdictLabel`, `getVerdictStyle` and the
  total-score colour thresholds of the reports page;
* the cache-revalidation API route handlers (node and edge runtimes);
* the `company_reports` schema facts (unique `cache_key`, bounded
  `total_score`) from the SQL migrations;
* the report-generation pipeline core (evidence aggregator, priority
  weights validation, cache manager and orchestrator), which lives in
  the Python half of the repository; those definitions are modelled
  from the specification text and are marked as such in their doc
  comments.

Timestamps are modelled as natural numbers, SQL `DECIMAL` values as
rationals, and nullable columns as `Option`.
-/

/-! ## Generic string helpers (JS `toLowerCase` / `includes` semantics) -/

/-- ASCII lowercasing of a single character, as JS `toLowerCase` acts on
the ASCII verdict strings used by the dashboard; other characters are
returned unchanged. -/
def lowerChar (c : Char) : Char :=
  match c with
  | 'A' => 'a' | 'B' => 'b' | 'C' => 'c' | 'D' => 'd' | 'E' => 'e'
  | 'F' => 'f' | 'G' => 'g' | 'H' => 'h' | 'I' => 'i' | 'J' => 'j'
  | 'K' => 'k' | 'L' => 'l' | 'M' => 'm' | 'N' => 'n' | 'O' => 'o'
  | 'P' => 'p' | 'Q' => 'q' | 'R' => 'r' | 'S' => 's' | 'T' => 't'
  | 'U' => 'u' | 'V' => 'v' | 'W' => 'w' | 'X' => 'x' | 'Y' => 'y'
  | 'Z' => 'z'
  | other => other

/-- Lowercase a whole string character-wise. -/
def lowerStr (s : String) : String := ⟨s.data.map lowerChar⟩

/-- Check that the first list is a prefix of the second. -/
def isPrefixCheck : List Char → List Char → Bool
  | [], _ => true
  | _ :: _, [] => false
  | a :: as, b :: bs => a == b && isPrefixCheck as bs

/-- Check that `pat` occurs as a contiguous subsequence of the second list. -/
def containsSeq (pat : List Char) : List Char → Bool
  | [] => pat.isEmpty
  | b :: rest => isPrefixCheck pat (b :: rest) || containsSeq pat rest

/-- JS `String.prototype.includes`: `pat` occurs contiguously in `s`. -/
def strIncludes (s pat : String) : Bool := containsSeq pat.data s.data

/-! ## Ordering of query results

Supabase `.order(column, { ascending: false })` is modelled by a stable
insertion sort parameterised by a boolean comparison. -/

/-- Insert an element into a list sorted by `le`, keeping earlier equal
elements first (stable insertion). -/
def insertOrd (le : α → α → Bool) (a : α) : List α → List α
  | [] => [a]
  | b :: l => if le a b then a :: b :: l else b :: insertOrd le a l

/-- Insertion sort by the boolean comparison `le`. -/
def sortOrd (le : α → α → Bool) : List α → List α
  | [] => []
  | a :: l => insertOrd le a (sortOrd le l)

theorem mem_insertOrd (le : α → α → Bool) (a x : α) (l : List α) :
    x ∈ insertOrd le a l ↔ x = a ∨ x ∈ l := by
  induction l with
  | nil => simp [insertOrd]
  | cons b l ih =>
    by_cases h : le a b
    · simp [insertOrd, h]
    · simp only [insertOrd, h, Bool.false_eq_true, if_false, List.mem_cons, ih]
      tauto

theorem length_insertOrd (le : α → α → Bool) (a : α) (l : List α) :
    (insertOrd le a l).length = l.length + 1 := by
  induction l with
  | nil => rfl
  | cons b l ih =>
    by_cases h : le a b
    · simp [insertOrd, h]
    · simp [insertOrd, h, ih]

theorem mem_sortOrd (le : α → α → Bool) (x : α) (l : List α) :
    x ∈ sortOrd le l ↔ x ∈ l := by
  induction l with
  | nil => simp [sortOrd]
  | cons a l ih => simp [sortOrd, mem_insertOrd, ih]

theorem length_sortOrd (le : α → α → Bool) (l : List α) :
    (sortOrd le l).length = l.length := by
  induction l with
  | nil => rfl
  | cons a l ih => simp [sortOrd, length_insertOrd, ih]

theorem pairwise_insertOrd (le : α → α → Bool)
    (htrans : ∀ a b c, le a b = true → le b c = true → le a c = true)
    (htot : ∀ a b, le a b = false → le b a = true)
    (a : α) (l : List α) (h : l.Pairwise (fun x y => le x y = true)) :
    (insertOrd le a l).Pairwise (fun x y => le x y = true) := by
  induction l with
  | nil => simp [insertOrd]
  | cons b l ih =>
    rcases h with _ | ⟨hb, hl⟩
    by_cases hab : le a b
    · simp only [insertOrd, hab, if_true]
      refine List.Pairwise.cons ?_ (List.Pairwise.cons hb hl)
      intro x hx
      rcases List.mem_cons.mp hx with rfl | hx
      · exact hab
      · exact htrans a b x hab (hb x hx)
    · simp only [insertOrd, hab, Bool.false_eq_true, if_false]
      refine List.Pairwise.cons ?_ (ih hl)
      intro x hx
      rcases (mem_insertOrd le a x l).mp hx with hxa | hx
      · rw [hxa]
        exact htot a b (by simpa using hab)
      · exact hb x hx

theorem pairwise_sortOrd (le : α → α → Bool)
    (htrans : ∀ a b c, le a b = true → le b c = true → le a c = true)
    (htot : ∀ a b, le a b = false → le b a = true) (l : List α) :
    (sortOrd le l).Pairwise (fun x y => le x y = true) := by
  induction l with
  | nil => exact List.Pairwise.nil
  | cons a l ih => exact pairwise_insertOrd le htrans htot a _ ih

/-! ## Data model: rows of the Supabase tables read by the dashboard

Columns not read by any fetcher or claim (report bodies, JSON details,
audit timestamps) are omitted; nullable columns are `Option`s, `DECIMAL`
is `ℚ`, timestamps are `Nat`. -/

/-- Row of `company_reports` (migration 010 / README schema). -/
structure CompanyReport where
  id : Nat
  company_id : Option Nat
  company_name : String
  verdict : Option String
  total_score : Option ℚ
  quality_passed : Bool
  generated_at : Nat
  cache_key : Option String
  cache_expires_at : Option Nat
  deriving DecidableEq

/-- Row of `job_postings`, fields used by the jobs page. -/
structure JobPosting where
  id : Nat
  title : String
  company_id : Option Nat
  is_active : Bool
  crawled_at : Nat
  source_site : String
  deriving DecidableEq

/-- Row of `companies`, fields used by the companies page. -/
structure Company where
  id : Nat
  name : String
  deriving DecidableEq

/-- Row of `market_analysis`, fields used by the trends page. -/
structure MarketAnalysis where
  id : Nat
  keyword : String
  analysis_date : Nat
  total_postings : Option Nat
  deriving DecidableEq

/-- Comparison for `.order('generated_at', { ascending: false })`. -/
def reportRecentFirst (a b : CompanyReport) : Bool :=
  decide (b.generated_at ≤ a.generated_at)

/-- Comparison for `.order('crawled_at', { ascending: false })`. -/
def jobRecentFirst (a b : JobPosting) : Bool :=
  decide (b.crawled_at ≤ a.crawled_at)

/-- Comparison for `.order('analysis_date', { ascending: false })`. -/
def analysisRecentFirst (a b : MarketAnalysis) : Bool :=
  decide (b.analysis_date ≤ a.analysis_date)

/-- Comparison for `.order('name')` (ascending). -/
def companyNameAsc (a b : Company) : Bool :=
  decide (a.name ≤ b.name)

/-! ## Web dashboard data fetchers

Each fetcher takes the table rows plus an optional database error, the
way the page receives `{ data, error }` from Supabase, and mirrors the
error handling of the page code. -/

/-- JS `Number(params.page) || 1`: an absent or zero page parameter
becomes page 1. -/
def pageFromParam : Option Nat → Nat
  | none => 1
  | some n => if n == 0 then 1 else n

/-- Embeds `getCompanyReports` of the company detail page: reports of
one company, most recent first, limit 5; an error yields `[]`. -/
def getCompanyReports (companyId : Nat) (db : List CompanyReport)
    (err : Option String) : List CompanyReport :=
  match err with
  | some _ => []
  | none =>
      (sortOrd reportRecentFirst
        (db.filter (fun r => r.company_id == some companyId))).take 5

/-- Embeds `getReports` of the reports list page: all reports, most
recent first, 20 per page with exact count; an error yields `([], 0)`. -/
def getReports (pageParam : Option Nat) (db : List CompanyReport)
    (err : Option String) : List CompanyReport × Nat :=
  match err with
  | some _ => ([], 0)
  | none =>
      let page := pageFromParam pageParam
      (((sortOrd reportRecentFirst db).drop ((page - 1) * 20)).take 20,
        db.length)

/-- Embeds `getCompanies` of the companies page: all companies ordered
by name; an error yields `[]`. -/
def getCompanies (db : List Company) (err : Option String) : List Company :=
  match err with
  | some _ => []
  | none => sortOrd companyNameAsc db

/-- Query parameters of the jobs page. -/
structure JobsQueryParams where
  keyword : Option String
  site : Option String
  page : Option Nat
  status : Option String
  deriving DecidableEq

/-- Embeds `getJobs` of the jobs page: status/keyword/site filters,
most recent first, 20 per page with exact count of the filtered rows;
an error yields `([], 0)`. -/
def getJobs (p : JobsQueryParams) (todayStart : Nat) (db : List JobPosting)
    (err : Option String) : List JobPosting × Nat :=
  match err with
  | some _ => ([], 0)
  | none =>
      let status := match p.status with
        | none => "active"
        | some s => if s == "" then "active" else s
      let byStatus :=
        if status == "active" then db.filter (fun j => j.is_active)
        else if status == "closed" then db.filter (fun j => !j.is_active)
        else if status == "today" then
          db.filter (fun j => decide (todayStart ≤ j.crawled_at))
        else db
      let byKeyword := match p.keyword with
        | none => byStatus
        | some kw =>
            if kw == "" then byStatus
            else byStatus.filter
              (fun j => strIncludes (lowerStr j.title) (lowerStr kw))
      let bySite := match p.site with
        | none => byKeyword
        | some s =>
            if s == "" then byKeyword
            else byKeyword.filter (fun j => j.source_site == s)
      let page := pageFromParam p.page
      (((sortOrd jobRecentFirst bySite).drop ((page - 1) * 20)).take 20,
        bySite.length)

/-! ## Trends page aggregation -/

/-- Does the accumulated map already contain this keyword. -/
def hasKeyword (m : List MarketAnalysis) (k : String) : Bool :=
  m.any (fun b => b.keyword == k)

/-- One step of the `latestByKeyword` loop: a JS `Map` keyed by keyword
that is only written when the key is absent, with insertion order
preserved, is an association list appended to on a missing key. -/
def insertIfAbsent (m : List MarketAnalysis) (a : MarketAnalysis) :
    List MarketAnalysis :=
  if hasKeyword m a.keyword then m else m ++ [a]

/-- Embeds the keyword-deduplication loop of `getTrendsData`:
`Array.from(latestByKeyword.values())` after the `forEach`. -/
def getTrendsAnalyses (analyses : List MarketAnalysis) :
    List MarketAnalysis :=
  analyses.foldl insertIfAbsent []

/-- Embeds `getTrendsData`: the table ordered by `analysis_date`
descending, then deduplicated by keyword. -/
def getTrendsData (db : List MarketAnalysis) : List MarketAnalysis :=
  getTrendsAnalyses (sortOrd analysisRecentFirst db)

/-! ## Verdict presentation -/

/-- Badge variants of the dashboard `Badge` component. -/
inductive BadgeVariant where
  | success
  | warning
  | danger
  | neutral
  deriving DecidableEq

/-- Label plus badge variant returned by `getVerdictLabel`. -/
structure VerdictLabel where
  label : String
  variant : BadgeVariant
  deriving DecidableEq

/-- Embeds `getVerdictLabel` of the reports list page: the JS `switch`
on the stored verdict string, with the default branch for `null` and
any unmatched value. -/
def getVerdictLabel (verdict : Option String) : VerdictLabel :=
  match verdict with
  | none => ⟨"분석중", BadgeVariant.neutral⟩
  | some v =>
      if v = "STRONG_YES" then ⟨"강력 추천", BadgeVariant.success⟩
      else if v = "YES" then ⟨"추천", BadgeVariant.success⟩
      else if v = "CONDITIONAL" then ⟨"조건부 추천", BadgeVariant.warning⟩
      else if v = "NO" then ⟨"비추천", BadgeVariant.danger⟩
      else if v = "STRONG_NO" then ⟨"강력 비추천", BadgeVariant.danger⟩
      else ⟨"분석중", BadgeVariant.neutral⟩

/-- Colour classes returned by `getVerdictStyle`. -/
structure VerdictStyle where
  bg : String
  text : String
  deriving DecidableEq

/-- Embeds `getVerdictStyle` of the company detail page: lowercase
substring matching on the stored verdict, with a gray fallback for a
null or empty verdict and for any unmatched value. -/
def getVerdictStyle (verdict : Option String) : VerdictStyle :=
  match verdict with
  | none => ⟨"bg-gray-100", "text-gray-700"⟩
  | some v =>
      if v = "" then ⟨"bg-gray-100", "text-gray-700"⟩
      else if strIncludes (lowerStr v) "no-go" || strIncludes (lowerStr v) "nogo" then
        ⟨"bg-red-100", "text-red-700"⟩
      else if strIncludes (lowerStr v) "conditional" then
        ⟨"bg-yellow-100", "text-yellow-700"⟩
      else if lowerStr v = "go" then ⟨"bg-green-100", "text-green-700"⟩
      else ⟨"bg-gray-100", "text-gray-700"⟩

/-! ## Total-score presentation and schema bounds -/

/-- Embeds the colour thresholds the reports list page applies to a
non-null `total_score` (green at 70 and above, yellow at 50 and above,
red below 50). -/
def totalScoreColorClass (s : ℚ) : String :=
  if 70 ≤ s then "text-green-600"
  else if 50 ≤ s then "text-yellow-600"
  else "text-red-600"

/-- Range representable by the SQL column type `DECIMAL(3,2)` of
`company_reports.total_score` (precision 3, scale 2). -/
def decimalThreeTwoRange (s : ℚ) : Prop := -10 < s ∧ s < 10

/-- Documented range of `company_reports.total_score` (schema comment
`0.00 ~ 5.00`, also rendered as `x/5.0` by the company detail page). -/
def totalScoreDocumentedRange (s : ℚ) : Prop := 0 ≤ s ∧ s ≤ 5

/-! ## Cache-revalidation API route -/

/-- Observable outcome of one POST to the revalidation endpoint: HTTP
status, error message if any, and the paths passed to `revalidatePath`
in order. -/
structure RevalResponse where
  status : Nat
  errorMsg : Option String
  revalidated : List String
  deriving DecidableEq

/-- JS `body.path || '/'`: a missing or empty path falls back to the
root path. -/
def pathOrRoot : Option String → String
  | none => "/"
  | some p => if p = "" then "/" else p

/-- Embeds the node-runtime `POST` handler of `/api/revalidate`: checks
the `x-revalidate-secret` header against the configured secret,
revalidates the requested path, and additionally revalidates the four
listing pages when that path is the root; a body that fails to parse as
JSON yields a 500. -/
def revalidateHandler (configSecret : String) (headerSecret : Option String)
    (body : Except Unit (Option String)) : RevalResponse :=
  if headerSecret = some configSecret then
    match body with
    | Except.error _ => ⟨500, some "Revalidation failed", []⟩
    | Except.ok bp =>
        let path := pathOrRoot bp
        ⟨200, none,
          path :: (if path = "/" then
            ["/jobs", "/companies", "/trends", "/roadmap"] else [])⟩
  else ⟨401, some "Invalid secret", []⟩

/-- Embeds the edge-runtime `POST` handler of `/api/revalidate`: the
same secret check, but no path is ever revalidated (Cloudflare manages
the cache); the response only acknowledges the notification. -/
def revalidateHandlerEdge (configSecret : String) (headerSecret : Option String)
    (body : Except Unit (Option String)) : RevalResponse :=
  if headerSecret = some configSecret then
    match body with
    | Except.error _ => ⟨500, some "Revalidation failed", []⟩
    | Except.ok _ => ⟨200, none, []⟩
  else ⟨401, some "Invalid secret", []⟩

/-! ## Report-generation pipeline core

The Python pipeline (evidence aggregator, priority weights, cache
manager, orchestrator) is not part of the web sources; its behaviour is
modelled from the specification text and from the repository artefacts
that do exist (the `company_reports` schema with its unique `cache_key`
constraint, and the CLI documentation of `analyze-report`). -/

/-- Modelled from the spec: a priority-weights mapping from named
evaluation axis to weight; the CLI accepts it as an `axis:value` comma
list. -/
def Weights : Type := List (String × Int)

/-- Sum of the weights of a priority-weights mapping. -/
def weightsSum (ws : List (String × Int)) : Int :=
  ws.foldl (fun acc p => acc + p.2) 0

/-- Modelled from the spec: the default priority weights supplied when
the caller omits them, one per evaluation axis, summing to 100 (axis
names as in the CLI documentation of `--weights`). -/
def defaultWeights : List (String × Int) :=
  [("성장성", 30), ("안정성", 20), ("보상", 25), ("워라밸", 10), ("직무적합", 15)]

/-- Validation outcomes for priority weights. -/
inductive WeightsError where
  | negativeWeight
  | sumNot100
  deriving DecidableEq

/-- Modelled from the spec: validation of caller-supplied priority
weights, absent from the web sources. An omitted mapping gets the
defaults; a mapping with a negative weight or whose weights do not sum
to exactly 100 is rejected. -/
def validateWeights (input : Option (List (String × Int))) :
    Except WeightsError (List (String × Int)) :=
  match input with
  | none => Except.ok defaultWeights
  | some ws =>
      if ws.any (fun p => decide (p.2 < 0)) then Except.error WeightsError.negativeWeight
      else if weightsSum ws = 100 then Except.ok ws
      else Except.error WeightsError.sumNot100

/-! ### Evidence aggregation -/

/-- Per-company raw evidence as resolved from storage: `none` means the
source is missing entirely, `some` carries the records found. -/
structure RawSources where
  profile : Option (List String)
  postings : Option (List String)
  reviews : Option (List String)
  interviews : Option (List String)
  benefits : Option (List String)
  salaries : Option (List String)
  news : Option (List String)
  deriving DecidableEq

/-- Records contributed by one optional source. -/
def sourceCount (s : Option (List String)) : Nat := (s.getD []).length

/-- Total number of records the company identity resolves to across all
evidence sources. -/
def totalRecords (src : RawSources) : Nat :=
  sourceCount src.profile + sourceCount src.postings + sourceCount src.reviews +
    sourceCount src.interviews + sourceCount src.benefits +
    sourceCount src.salaries + sourceCount src.news

/-- In-memory evidence bundle: every sub-collection is a plain list,
emptiness being a first-class signal rather than an error. -/
structure EvidenceBundle where
  profile : List String
  postings : List String
  reviews : List String
  interviews : List String
  benefits : List String
  salaries : List String
  news : List String
  deriving DecidableEq

/-- Failure modes of the aggregation stage. -/
inductive AggError where
  | insufficientEvidence
  deriving DecidableEq

/-- Modelled from the spec: the Evidence Aggregator, absent from the
web sources. Missing sources produce empty collections, not failures;
the aggregator fails with `InsufficientEvidence` exactly when the
company identity resolves to zero records across all sources. -/
def aggregate (src : RawSources) : Except AggError EvidenceBundle :=
  if totalRecords src = 0 then Except.error AggError.insufficientEvidence
  else Except.ok
    { profile := src.profile.getD []
      postings := src.postings.getD []
      reviews := src.reviews.getD []
      interviews := src.interviews.getD []
      benefits := src.benefits.getD []
      salaries := src.salaries.getD []
      news := src.news.getD [] }

/-- Modelled from the spec: the analysis pipeline prefix around the
provider call. Aggregation runs first; on failure the provider is never
invoked, otherwise the provider is called once on the bundle. The
second component counts provider calls. -/
def analyzePipeline (gen : EvidenceBundle → String) (src : RawSources) :
    Except AggError String × Nat :=
  match aggregate src with
  | Except.error e => (Except.error e, 0)
  | Except.ok b => (Except.ok (gen b), 1)

/-! ### Cache manager and orchestrator -/

/-- Modelled from the spec: a report request as taken by the
`analyze-report` command (company name, optional job posting id,
priority weights, cache policy, cache validity in days). -/
structure ReportRequest where
  company_name : String
  job_posting_id : Option Nat
  weights : List (String × Int)
  bypass_cache : Bool
  cache_days : Nat
  deriving DecidableEq

/-- Deterministic rendering of an optional job posting id. -/
def jobIdPart : Option Nat → String
  | none => "-"
  | some n => toString n

/-- Deterministic rendering of a weights mapping. -/
def weightsPart : List (String × Int) → String
  | [] => ""
  | (axis, w) :: rest => axis ++ ":" ++ toString w ++ "," ++ weightsPart rest

/-- Modelled from the spec and the schema comment on
`company_reports.cache_key` (company name + job id + weights hash): the
deterministic cache key of a request. -/
def cacheKey (req : ReportRequest) : String :=
  req.company_name ++ "|" ++ jobIdPart req.job_posting_id ++ "|" ++
    weightsPart req.weights

/-- Modelled from the spec: the persisted report record as the cache
manager sees it (identity, quality-gate outcome, cache metadata). -/
structure StoredReport where
  id : Nat
  company_name : String
  quality_passed : Bool
  cache_key : String
  cache_expires_at : Nat
  deriving DecidableEq

/-- Find the row holding a cache key, as the unique-keyed
`company_reports` index resolves it. -/
def findByKey (k : String) (db : List StoredReport) : Option StoredReport :=
  db.find? (fun s => s.cache_key == k)

/-- Modelled from the spec: `store(report, ttl)` against the unique
`cache_key` constraint, replacing the row holding the same key if one
exists (last-write-wins) and inserting otherwise. -/
def upsertByKey (r : StoredReport) : List StoredReport → List StoredReport
  | [] => [r]
  | s :: rest =>
      if s.cache_key == r.cache_key then r :: rest else s :: upsertByKey r rest

/-- Modelled from the spec: `lookup(key)` of the Cache Manager, which
returns a prior report exactly when the key resolves to a row that
passed the quality gate and whose cache has not expired. -/
def cacheLookup (k : String) (now : Nat) (db : List StoredReport) :
    Option StoredReport :=
  match findByKey k db with
  | none => none
  | some r =>
      if r.quality_passed ∧ now < r.cache_expires_at then some r else none

/-- Mutable state threaded through the orchestrator: the report store,
the next fresh report id, and the number of provider calls made. -/
structure GenState where
  db : List StoredReport
  nextId : Nat
  providerCalls : Nat
  deriving DecidableEq

/-- Modelled from the spec: the report produced by one provider call
for a request — fresh id, the quality-gate outcome given by the oracle
`gate`, and cache metadata (deterministic key, time-based expiry from
the validity window in days). -/
def generatedReport (gate : ReportRequest → Bool) (req : ReportRequest)
    (now : Nat) (st : GenState) : StoredReport :=
  { id := st.nextId
    company_name := req.company_name
    quality_passed := gate req
    cache_key := cacheKey req
    cache_expires_at := now + req.cache_days * 86400 }

/-- Modelled from the spec: one run of the generation pipeline for one
request. With `bypass_cache=false` a valid cached report short-circuits
the provider; otherwise the provider is called once, the generated
report is persisted under the request's cache key, and the fresh id
counter advances. A quality-failed report is persisted all the same. -/
def processRequest (gate : ReportRequest → Bool) (req : ReportRequest)
    (now : Nat) (st : GenState) : StoredReport × GenState :=
  match (if req.bypass_cache then none else cacheLookup (cacheKey req) now st.db) with
  | some r => (r, st)
  | none =>
      (generatedReport gate req now st,
        { db := upsertByKey (generatedReport gate req now st) st.db
          nextId := st.nextId + 1
          providerCalls := st.providerCalls + 1 })

theorem findByKey_upsertByKey_self (r : StoredReport) (db : List StoredReport) :
    findByKey r.cache_key (upsertByKey r db) = some r := by
  induction db with
  | nil => simp [findByKey, upsertByKey, List.find?]
  | cons s rest ih =>
    by_cases h : s.cache_key == r.cache_key
    · simp [findByKey, upsertByKey, h, List.find?]
    · simp only [upsertByKey, h, Bool.false_eq_true, if_false]
      simpa [findByKey, List.find?, h] using ih

theorem mem_upsertByKey_sub (x r : StoredReport) (db : List StoredReport)
    (hx : x ∈ upsertByKey r db) : x = r ∨ x ∈ db := by
  induction db with
  | nil => simpa [upsertByKey] using hx
  | cons s rest ih =>
    by_cases h : s.cache_key == r.cache_key
    · simp only [upsertByKey, h, if_true, List.mem_cons] at hx
      rcases hx with rfl | hx
      · exact Or.inl rfl
      · exact Or.inr (List.mem_cons_of_mem s hx)
    · simp only [upsertByKey, h, Bool.false_eq_true, if_false, List.mem_cons] at hx
      rcases hx with rfl | hx
      · exact Or.inr (List.mem_cons_self x rest)
      · rcases ih hx with h1 | h1
        · exact Or.inl h1
        · exact Or.inr (List.mem_cons_of_mem s h1)

theorem upsertByKey_keys_distinct (r : StoredReport) (db : List StoredReport)
    (h : db.Pairwise (fun a b => a.cache_key ≠ b.cache_key)) :
    (upsertByKey r db).Pairwise (fun a b => a.cache_key ≠ b.cache_key) := by
  induction db with
  | nil => simp [upsertByKey]
  | cons s rest ih =>
    rcases h with _ | ⟨hs, hrest⟩
    by_cases hk : s.cache_key == r.cache_key
    · simp only [upsertByKey, hk, if_true]
      refine List.Pairwise.cons ?_ hrest
      intro x hx
      have hne := hs x hx
      rw [← (by simpa using hk : s.cache_key = r.cache_key)]
      exact hne
    · simp only [upsertByKey, hk, Bool.false_eq_true, if_false]
      refine List.Pairwise.cons ?_ (ih hrest)
      intro x hx
      rcases mem_upsertByKey_sub x r rest hx with rfl | hx
      · simpa using hk
      · exact hs x hx

/-! ## Helper lemmas -/

theorem hasKeyword_append_single (acc : List MarketAnalysis)
    (a : MarketAnalysis) (k : String) :
    hasKeyword (acc ++ [a]) k = (hasKeyword acc k || (a.keyword == k)) := by
  simp [hasKeyword, List.any_append]

theorem foldlInsert_spec (l : List MarketAnalysis) : ∀ acc : List MarketAnalysis,
    ∃ s, l.foldl insertIfAbsent acc = acc ++ s ∧
      s.Sublist l ∧
      (∀ a ∈ s, hasKeyword acc a.keyword = false) ∧
      s.Pairwise (fun a b => a.keyword ≠ b.keyword) ∧
      (∀ k, hasKeyword acc k = false →
        s.find? (fun a => a.keyword == k) = l.find? (fun a => a.keyword == k)) := by
  induction l with
  | nil =>
    intro acc
    exact ⟨[], by simp, List.Sublist.refl [], by simp, by simp, by simp⟩
  | cons a l ih =>
    intro acc
    by_cases hk : hasKeyword acc a.keyword
    · obtain ⟨s, h1, h2, h3, h4, h5⟩ := ih acc
      refine ⟨s, ?_, h2.cons a, h3, h4, ?_⟩
      · simpa [List.foldl_cons, insertIfAbsent, hk] using h1
      · intro k hacc
        have hak : (a.keyword == k) = false := by
          by_contra h
          have : a.keyword = k := by
            simpa using Bool.not_eq_false _ |>.mp h
          rw [this] at hk
          rw [hk] at hacc
          exact Bool.true_eq_false.mp hacc
        have hstep : List.find? (fun x => x.keyword == k) (a :: l) =
            List.find? (fun x => x.keyword == k) l :=
          List.find?_cons_of_neg _ (by simp [hak])
        rw [h5 k hacc, hstep]
    · obtain ⟨s, h1, h2, h3, h4, h5⟩ := ih (acc ++ [a])
      refine ⟨a :: s, ?_, h2.cons₂ a, ?_, ?_, ?_⟩
      · simp only [List.foldl_cons, insertIfAbsent, hk, Bool.false_eq_true, if_false]
        rw [h1, List.append_assoc, List.singleton_append]
      · intro x hx
        rcases List.mem_cons.mp hx with rfl | hx
        · simpa using hk
        · have := h3 x hx
          rw [hasKeyword_append_single] at this
          exact (Bool.or_eq_false_iff.mp this).1
      · refine List.Pairwise.cons ?_ h4
        intro x hx
        have := h3 x hx
        rw [hasKeyword_append_single] at this
        have hne := (Bool.or_eq_false_iff.mp this).2
        intro hcontra
        rw [hcontra] at hne
        simp at hne
      · intro k hacc
        by_cases hak : (a.keyword == k) = true
        · have hsl : List.find? (fun x => x.keyword == k) (a :: s) = some a :=
            List.find?_cons_of_pos _ hak
          have hll : List.find? (fun x => x.keyword == k) (a :: l) = some a :=
            List.find?_cons_of_pos _ hak
          rw [hsl, hll]
        · have hak2 : (a.keyword == k) = false := Bool.not_eq_true _ |>.mp hak
          have hsl : List.find? (fun x => x.keyword == k) (a :: s) =
              List.find? (fun x => x.keyword == k) s :=
            List.find?_cons_of_neg _ (by simp [hak2])
          have hll : List.find? (fun x => x.keyword == k) (a :: l) =
              List.find? (fun x => x.keyword == k) l :=
            List.find?_cons_of_neg _ (by simp [hak2])
          rw [hsl, hll]
          apply h5
          rw [hasKeyword_append_single, hacc, hak2]
          rfl

/-! ## Claim theorems -/

/-- C10: for every list of market analyses (in particular the one the
trends page receives ordered by `analysis_date` descending), the
aggregation keeps at most one analysis per keyword, keeps exactly the
first occurrence of each keyword of the input — which, on the
descending-ordered input, is the most recent analysis — and preserves
the relative order of those first occurrences (the result is a sublist
of the input). -/
theorem getTrendsAnalyses_latest_per_keyword (l : List MarketAnalysis) :
    (getTrendsAnalyses l).Sublist l ∧
    (getTrendsAnalyses l).Pairwise (fun a b => a.keyword ≠ b.keyword) ∧
    (∀ k : String, (getTrendsAnalyses l).find? (fun a => a.keyword == k) =
      l.find? (fun a => a.keyword == k)) := by
  obtain ⟨s, h1, h2, h3, h4, h5⟩ := foldlInsert_spec l []
  have hres : getTrendsAnalyses l = s := by
    simpa [getTrendsAnalyses] using h1
  rw [hres]
  exact ⟨h2, h4, fun k => h5 k rfl⟩

/-- C9: for every dashboard data fetch (jobs list, reports list,
companies list, per-company reports), a database error yields the empty
result — an empty list and a count of 0 — instead of propagating. -/
theorem fetchers_error_to_empty (e : String) :
    (∀ p t db, getJobs p t db (some e) = ([], 0)) ∧
    (∀ p db, getReports p db (some e) = ([], 0)) ∧
    (∀ db, getCompanies db (some e) = []) ∧
    (∀ cid db, getCompanyReports cid db (some e) = []) :=
  ⟨fun _ _ _ => rfl, fun _ _ => rfl, fun _ => rfl, fun _ _ => rfl⟩

/-- C8: a POST to the revalidation endpoint whose secret header does
not match the configured secret gets HTTP 401 with error message
Invalid secret and revalidates nothing, on both the node and the edge
handler; an authorized request with a parsed body makes the node
handler revalidate the requested path (defaulting to the root), and
when that path is the root it additionally revalidates the jobs,
companies, trends and roadmap pages, in that order. -/
theorem revalidate_secret_gate (cfg : String) (hdr : Option String)
    (body : Except Unit (Option String)) :
    (hdr ≠ some cfg →
      revalidateHandler cfg hdr body = ⟨401, some "Invalid secret", []⟩ ∧
      revalidateHandlerEdge cfg hdr body = ⟨401, some "Invalid secret", []⟩) ∧
    (∀ bp, hdr = some cfg → body = Except.ok bp →
      (revalidateHandler cfg hdr body).status = 200 ∧
      pathOrRoot bp ∈ (revalidateHandler cfg hdr body).revalidated ∧
      (pathOrRoot bp = "/" →
        (revalidateHandler cfg hdr body).revalidated =
          ["/", "/jobs", "/companies", "/trends", "/roadmap"]) ∧
      (pathOrRoot bp ≠ "/" →
        (revalidateHandler cfg hdr body).revalidated = [pathOrRoot bp])) := by
  constructor
  · intro hne
    constructor
    · simp [revalidateHandler, hne]
    · simp [revalidateHandlerEdge, hne]
  · intro bp heq hbody
    subst heq
    subst hbody
    by_cases hroot : pathOrRoot bp = "/"
    · simp [revalidateHandler, hroot]
    · simp [revalidateHandler, hroot]

/-- C8 witness: concrete runs of the handlers through the theorem. -/
theorem revalidate_secret_gate_witness :
    revalidateHandler "s3cr3t" none (Except.ok none) =
      ⟨401, some "Invalid secret", []⟩ ∧
    (revalidateHandler "s3cr3t" (some "s3cr3t") (Except.ok none)).revalidated =
      ["/", "/jobs", "/companies", "/trends", "/roadmap"] ∧
    (revalidateHandler "s3cr3t" (some "s3cr3t") (Except.ok (some "/jobs"))).revalidated =
      ["/jobs"] :=
  ⟨((revalidate_secret_gate "s3cr3t" none (Except.ok none)).1 (by decide)).1,
    ((revalidate_secret_gate "s3cr3t" (some "s3cr3t") (Except.ok none)).2 none rfl
      rfl).2.2.1 rfl,
    ((revalidate_secret_gate "s3cr3t" (some "s3cr3t") (Except.ok (some "/jobs"))).2
      (some "/jobs") rfl rfl).2.2.2 (by decide)⟩

/-- C3 counterexample: the reports-page consumer does not recognize any
of the five verdict values named by the spec — all of StrongGo, Go,
ConditionalGo, NoGo, StrongNoGo fall into the unrecognized fallback
branch, while a value outside the spec enum (YES) is recognized; the
company-page style consumer likewise leaves StrongGo unstyled. -/
theorem verdict_spec_enum_unrecognized :
    getVerdictLabel (some "StrongGo") = ⟨"분석중", BadgeVariant.neutral⟩ ∧
    getVerdictLabel (some "Go") = ⟨"분석중", BadgeVariant.neutral⟩ ∧
    getVerdictLabel (some "ConditionalGo") = ⟨"분석중", BadgeVariant.neutral⟩ ∧
    getVerdictLabel (some "NoGo") = ⟨"분석중", BadgeVariant.neutral⟩ ∧
    getVerdictLabel (some "StrongNoGo") = ⟨"분석중", BadgeVariant.neutral⟩ ∧
    getVerdictLabel (some "YES") = ⟨"추천", BadgeVariant.success⟩ ∧
    getVerdictStyle (some "StrongGo") = ⟨"bg-gray-100", "text-gray-700"⟩ := by
  decide

/-- C3 (amended): the stored verdict is an unconstrained nullable
string; the reports-page consumer recognizes exactly the five values
STRONG_YES, YES, CONDITIONAL, NO and STRONG_NO, and maps every other
value — the spec's StrongGo..StrongNoGo included — and the null verdict
to the analysing-in-progress fallback. -/
theorem getVerdictLabel_recognized_set :
    (∀ v : String,
      v ∉ (["STRONG_YES", "YES", "CONDITIONAL", "NO", "STRONG_NO"] : List String) →
      getVerdictLabel (some v) = ⟨"분석중", BadgeVariant.neutral⟩) ∧
    (∀ v ∈ (["STRONG_YES", "YES", "CONDITIONAL", "NO", "STRONG_NO"] : List String),
      getVerdictLabel (some v) ≠ ⟨"분석중", BadgeVariant.neutral⟩) ∧
    getVerdictLabel none = ⟨"분석중", BadgeVariant.neutral⟩ := by
  refine ⟨?_, by decide, rfl⟩
  intro v hv
  simp only [getVerdictLabel]
  split_ifs with h1 h2 h3 h4 h5
  · exact absurd (by simp [h1]) hv
  · exact absurd (by simp [h2]) hv
  · exact absurd (by simp [h3]) hv
  · exact absurd (by simp [h4]) hv
  · exact absurd (by simp [h5]) hv
  · rfl

/-- C3 witness: the recognized-set theorem applied at concrete verdict
strings. -/
theorem getVerdictLabel_recognized_set_witness :
    getVerdictLabel (some "Conditional Go") = ⟨"분석중", BadgeVariant.neutral⟩ ∧
    getVerdictLabel (some "STRONG_YES") ≠ ⟨"분석중", BadgeVariant.neutral⟩ :=
  ⟨getVerdictLabel_recognized_set.1 "Conditional Go" (by decide),
    getVerdictLabel_recognized_set.2.1 "STRONG_YES" (by decide)⟩

/-- C4: the reports list page bands a non-null `total_score` against the
thresholds 70 and 50, so every score inside the documented range 0–5 of
the `total_score` column (DECIMAL(3,2), commented 0.00 ~ 5.00, rendered
as x/5.0 by the company page) is displayed with the failing red colour,
a near-perfect 4.5 included. -/
theorem totalScore_thresholds_unreachable :
    (∀ s : ℚ, totalScoreDocumentedRange s →
      totalScoreColorClass s = "text-red-600") ∧
    totalScoreDocumentedRange (9 / 2 : ℚ) ∧
    totalScoreColorClass (9 / 2 : ℚ) = "text-red-600" ∧
    decimalThreeTwoRange (9 / 2 : ℚ) := by
  refine ⟨?_, ⟨by norm_num, by norm_num⟩, ?_, ⟨by norm_num, by norm_num⟩⟩
  · intro s hs
    have h5 : s ≤ 5 := hs.2
    have h70 : ¬ (70 : ℚ) ≤ s := by linarith
    have h50 : ¬ (50 : ℚ) ≤ s := by linarith
    simp [totalScoreColorClass, h70, h50]
  · have h70 : ¬ (70 : ℚ) ≤ (9 / 2 : ℚ) := by norm_num
    have h50 : ¬ (50 : ℚ) ≤ (9 / 2 : ℚ) := by norm_num
    simp [totalScoreColorClass, h70, h50]

/-- C4 witness: the threshold theorem applied at the concrete top-range
score 4.5. -/
theorem totalScore_thresholds_unreachable_witness :
    totalScoreColorClass (9 / 2 : ℚ) = "text-red-600" :=
  totalScore_thresholds_unreachable.1 (9 / 2) ⟨by norm_num, by norm_num⟩

/-- Report row with a failed quality gate, used to exercise the default
company-report lookups. -/
def failedReport : CompanyReport :=
  { id := 1
    company_id := some 7
    company_name := "Acme"
    verdict := some "NO"
    total_score := some 2
    quality_passed := false
    generated_at := 100
    cache_key := some "k"
    cache_expires_at := some 200 }

/-- C1 counterexample: a persisted report with `quality_passed=false`
is returned — first — by the default lookup-by-company and by the
default latest-reports listing, so the default lookups do not restrict
to quality-gate-passing reports. -/
theorem getCompanyReports_serves_failed_report :
    getCompanyReports 7 [failedReport] none = [failedReport] ∧
    failedReport.quality_passed = false ∧
    (getReports none [failedReport] none).1 = [failedReport] := by
  refine ⟨rfl, rfl, rfl⟩

/-- C1 (amended): the default lookup of reports by company returns the
company's reports ordered most recent first (limit 5) with no quality
filter: every stored report of the company — `quality_passed=false`
rows included — appears whenever the company has at most 5 reports,
and the reports listing likewise counts and serves all reports. -/
theorem getCompanyReports_default_lookup (db : List CompanyReport) (cid : Nat) :
    (∀ r ∈ getCompanyReports cid db none, r ∈ db ∧ r.company_id = some cid) ∧
    (getCompanyReports cid db none).Pairwise
      (fun a b => b.generated_at ≤ a.generated_at) ∧
    (getCompanyReports cid db none).length ≤ 5 ∧
    (∀ r ∈ db, r.company_id = some cid →
      (db.filter (fun x => x.company_id == some cid)).length ≤ 5 →
      r ∈ getCompanyReports cid db none) ∧
    (∀ p, (getReports p db none).2 = db.length) ∧
    (db.length ≤ 20 → ∀ r ∈ db, r ∈ (getReports none db none).1) := by
  have htrans : ∀ a b c : CompanyReport, reportRecentFirst a b = true →
      reportRecentFirst b c = true → reportRecentFirst a c = true := by
    intro a b c hab hbc
    simp only [reportRecentFirst, decide_eq_true_eq] at hab hbc ⊢
    omega
  have htot : ∀ a b : CompanyReport, reportRecentFirst a b = false →
      reportRecentFirst b a = true := by
    intro a b h
    simp only [reportRecentFirst, decide_eq_false_iff_not] at h
    simp only [reportRecentFirst, decide_eq_true_eq]
    omega
  refine ⟨?_, ?_, ?_, ?_, ?_, ?_⟩
  · intro r hr
    simp only [getCompanyReports] at hr
    have hr2 := List.take_subset _ _ hr
    have hr3 := (mem_sortOrd _ _ _).mp hr2
    have hr4 := List.mem_filter.mp hr3
    exact ⟨hr4.1, by simpa using hr4.2⟩
  · simp only [getCompanyReports]
    have hp := pairwise_sortOrd reportRecentFirst htrans htot
      (db.filter (fun x => x.company_id == some cid))
    have hp2 := hp.sublist (List.take_sublist 5 _)
    exact hp2.imp (fun h => by simpa [reportRecentFirst] using h)
  · simp only [getCompanyReports, List.length_take]
    exact Nat.min_le_left _ _
  · intro r hr hcid hlen
    simp only [getCompanyReports]
    have hlen2 : (sortOrd reportRecentFirst
        (db.filter (fun x => x.company_id == some cid))).length ≤ 5 := by
      rw [length_sortOrd]
      exact hlen
    rw [List.take_of_length_le hlen2]
    exact (mem_sortOrd _ _ _).mpr (List.mem_filter.mpr ⟨hr, by simp [hcid]⟩)
  · intro p
    rfl
  · intro hlen r hr
    simp only [getReports, pageFromParam]
    have hlen2 : (sortOrd reportRecentFirst db).length ≤ 20 := by
      rw [length_sortOrd]
      exact hlen
    simp only [Nat.sub_self, Nat.zero_mul, List.drop_zero]
    rw [List.take_of_length_le hlen2]
    exact (mem_sortOrd _ _ _).mpr hr

/-- C1 witness: the amended lookup theorem applied to a store holding
one quality-failed report. -/
theorem getCompanyReports_default_lookup_witness :
    failedReport ∈ getCompanyReports 7 [failedReport] none ∧
    (getReports (some 1) [failedReport] none).2 = 1 :=
  ⟨(getCompanyReports_default_lookup [failedReport] 7).2.2.2.1 failedReport
      (by decide) (by decide) (by decide),
    (getCompanyReports_default_lookup [failedReport] 7).2.2.2.2.1 (some 1)⟩

/-- C6: every priority-weights mapping the system accepts has
non-negative weights summing to exactly 100; a mapping whose weights do
not sum to 100 is rejected; and the defaults — themselves summing to
100 — are supplied exactly when the caller omits the mapping. -/
theorem validateWeights_sum_invariant :
    (∀ input ws, validateWeights input = Except.ok ws →
      weightsSum ws = 100 ∧ ∀ p ∈ ws, 0 ≤ p.2) ∧
    (∀ ws, weightsSum ws ≠ 100 →
      ∀ out, validateWeights (some ws) ≠ Except.ok out) ∧
    validateWeights none = Except.ok defaultWeights ∧
    weightsSum defaultWeights = 100 ∧
    (∀ p ∈ defaultWeights, 0 ≤ p.2) := by
  refine ⟨?_, ?_, rfl, by decide, by decide⟩
  · intro input ws h
    match input with
    | none =>
        have hws : defaultWeights = ws := by
          simpa [validateWeights] using h
        rw [← hws]
        exact ⟨by decide, by decide⟩
    | some l =>
        simp only [validateWeights] at h
        by_cases hneg : (l.any fun p => decide (p.2 < 0)) = true
        · rw [if_pos hneg] at h
          cases h
        · rw [if_neg hneg] at h
          by_cases hsum : weightsSum l = 100
          · rw [if_pos hsum] at h
            have hws : l = ws := by
              injection h
            subst hws
            refine ⟨hsum, ?_⟩
            intro p hp
            have hall := List.any_eq_false.mp (Bool.not_eq_true _ |>.mp hneg) p hp
            simp only [decide_eq_true_eq] at hall
            omega
          · rw [if_neg hsum] at h
            cases h
  · intro ws hsum out h
    simp only [validateWeights] at h
    by_cases hneg : (ws.any fun p => decide (p.2 < 0)) = true
    · rw [if_pos hneg] at h
      cases h
    · rw [if_neg hneg, if_neg hsum] at h
      cases h

/-- C6 witness: the acceptance theorem applied to a concrete accepted
mapping and to the defaults. -/
theorem validateWeights_sum_invariant_witness :
    weightsSum [("성장성", (60 : Int)), ("보상", 40)] = 100 ∧
    validateWeights (some [("성장성", (60 : Int)), ("보상", 41)]) ≠
      Except.ok [("성장성", (60 : Int)), ("보상", 41)] :=
  ⟨(validateWeights_sum_invariant.1 (some [("성장성", 60), ("보상", 40)])
      [("성장성", 60), ("보상", 40)] rfl).1,
    validateWeights_sum_invariant.2.1 [("성장성", 60), ("보상", 41)] (by decide)
      [("성장성", 60), ("보상", 41)]⟩

/-- Evidence bundle produced by a successful aggregation: each source
resolved with `getD []`. -/
def bundleOf (src : RawSources) : EvidenceBundle :=
  { profile := src.profile.getD []
    postings := src.postings.getD []
    reviews := src.reviews.getD []
    interviews := src.interviews.getD []
    benefits := src.benefits.getD []
    salaries := src.salaries.getD []
    news := src.news.getD [] }

theorem aggregate_ok (src : RawSources) (h : totalRecords src ≠ 0) :
    aggregate src = Except.ok (bundleOf src) := by
  simp [aggregate, bundleOf, h]

/-- C7: a company that resolves to zero records across every evidence
source fails aggregation with InsufficientEvidence and the provider is
never called; a company with at least one record anywhere aggregates
successfully — with exactly one provider call — and every individually
missing source becomes an empty collection rather than a failure. -/
theorem aggregate_insufficient_evidence (gen : EvidenceBundle → String)
    (src : RawSources) :
    (totalRecords src = 0 →
      analyzePipeline gen src = (Except.error AggError.insufficientEvidence, 0)) ∧
    (totalRecords src ≠ 0 →
      (analyzePipeline gen src).2 = 1 ∧
      ∃ b, aggregate src = Except.ok b ∧
        (src.profile = none → b.profile = []) ∧
        (src.postings = none → b.postings = []) ∧
        (src.reviews = none → b.reviews = []) ∧
        (src.interviews = none → b.interviews = []) ∧
        (src.benefits = none → b.benefits = []) ∧
        (src.salaries = none → b.salaries = []) ∧
        (src.news = none → b.news = [])) := by
  constructor
  · intro h
    simp [analyzePipeline, aggregate, h]
  · intro h
    constructor
    · simp [analyzePipeline, aggregate, h]
    · refine ⟨bundleOf src, aggregate_ok src h, ?_, ?_, ?_, ?_, ?_, ?_, ?_⟩ <;>
        · intro hnone
          simp [bundleOf, hnone]

/-- C7 witness: the aggregation theorem applied to a company with a
single job posting and to a company with no records at all. -/
theorem aggregate_insufficient_evidence_witness :
    (analyzePipeline (fun _ => "report")
      ⟨none, some ["posting-1"], none, none, none, none, none⟩).2 = 1 ∧
    analyzePipeline (fun _ => "report")
        ⟨none, none, none, none, none, none, none⟩ =
      (Except.error AggError.insufficientEvidence, 0) :=
  ⟨((aggregate_insufficient_evidence (fun _ => "report")
      ⟨none, some ["posting-1"], none, none, none, none, none⟩).2 (by decide)).1,
    (aggregate_insufficient_evidence (fun _ => "report")
      ⟨none, none, none, none, none, none, none⟩).1 (by decide)⟩

theorem cacheLookup_iff (k : String) (n : Nat) (db : List StoredReport)
    (r : StoredReport) :
    cacheLookup k n db = some r ↔
      findByKey k db = some r ∧ r.quality_passed = true ∧
        n < r.cache_expires_at := by
  unfold cacheLookup
  cases h : findByKey k db with
  | none => simp
  | some s =>
    dsimp only
    by_cases hc : s.quality_passed = true ∧ n < s.cache_expires_at
    · rw [if_pos hc]
      constructor
      · intro heq
        injection heq with heq2
        subst heq2
        exact ⟨rfl, hc.1, hc.2⟩
      · rintro ⟨hfind, _, _⟩
        injection hfind with h2
        rw [h2]
    · rw [if_neg hc]
      constructor
      · intro heq
        cases heq
      · rintro ⟨hfind, hqp, hn⟩
        injection hfind with h2
        subst h2
        exact absurd ⟨hqp, hn⟩ hc

/-- C2: within the cache validity window and with `bypass_cache=false`,
issuing the same request a second time returns the very report of the
first issuance and leaves the pipeline state — the provider-call count
included — unchanged; and the cache lookup returns a prior report
exactly when its key resolves to a stored row that passed the quality
gate and whose expiry lies in the future. -/
theorem cache_idempotent (gate : ReportRequest → Bool) (req : ReportRequest)
    (now1 now2 : Nat) (st : GenState)
    (hb : req.bypass_cache = false)
    (hq : (processRequest gate req now1 st).1.quality_passed = true)
    (hw : now2 < (processRequest gate req now1 st).1.cache_expires_at) :
    processRequest gate req now2 (processRequest gate req now1 st).2 =
      ((processRequest gate req now1 st).1,
        (processRequest gate req now1 st).2) ∧
    (∀ k n db r, cacheLookup k n db = some r ↔
      findByKey k db = some r ∧ r.quality_passed = true ∧
        n < r.cache_expires_at) := by
  refine ⟨?_, fun k n db r => cacheLookup_iff k n db r⟩
  cases hlook : cacheLookup (cacheKey req) now1 st.db with
  | some r =>
    have h1 : processRequest gate req now1 st = (r, st) := by
      unfold processRequest
      rw [hb]
      simp [hlook]
    rw [h1] at hq hw ⊢
    have hfind : findByKey (cacheKey req) st.db = some r :=
      ((cacheLookup_iff _ _ _ _).mp hlook).1
    have hlook2 : cacheLookup (cacheKey req) now2 st.db = some r :=
      (cacheLookup_iff _ _ _ _).mpr ⟨hfind, hq, hw⟩
    unfold processRequest
    rw [hb]
    simp [hlook2]
  | none =>
    have h1 : processRequest gate req now1 st =
        (generatedReport gate req now1 st,
          { db := upsertByKey (generatedReport gate req now1 st) st.db
            nextId := st.nextId + 1
            providerCalls := st.providerCalls + 1 }) := by
      unfold processRequest
      rw [hb]
      simp [hlook]
    rw [h1] at hq hw ⊢
    have hfind : findByKey (cacheKey req)
        (upsertByKey (generatedReport gate req now1 st) st.db) =
        some (generatedReport gate req now1 st) :=
      findByKey_upsertByKey_self (generatedReport gate req now1 st) st.db
    have hlook2 : cacheLookup (cacheKey req) now2
        (upsertByKey (generatedReport gate req now1 st) st.db) =
        some (generatedReport gate req now1 st) :=
      (cacheLookup_iff _ _ _ _).mpr ⟨hfind, hq, hw⟩
    unfold processRequest
    rw [hb]
    simp [hlook2]

/-- C2 witness: two issuances of one concrete request against an empty
store, ten time units apart, within the one-day validity window. -/
theorem cache_idempotent_witness :
    processRequest (fun _ => true) ⟨"acme", none, [], false, 1⟩ 10
        (processRequest (fun _ => true) ⟨"acme", none, [], false, 1⟩ 0
          ⟨[], 0, 0⟩).2 =
      ((processRequest (fun _ => true) ⟨"acme", none, [], false, 1⟩ 0
          ⟨[], 0, 0⟩).1,
        (processRequest (fun _ => true) ⟨"acme", none, [], false, 1⟩ 0
          ⟨[], 0, 0⟩).2) :=
  (cache_idempotent (fun _ => true) ⟨"acme", none, [], false, 1⟩ 0 10
    ⟨[], 0, 0⟩ rfl (by decide) (by decide)).1

/-- C5: with `bypass_cache=true` the pipeline always makes a new
provider call and produces a report under a fresh id (distinct from
every id already in the store, given ids below the counter), records
the result under the request's — possibly colliding — cache key with
last-write-wins semantics so the key now resolves to the new report,
and preserves the uniqueness of cache keys that the store's unique
constraint enforces. -/
theorem cache_bypass_regenerates (gate : ReportRequest → Bool)
    (req : ReportRequest) (now : Nat) (st : GenState)
    (hb : req.bypass_cache = true) :
    (processRequest gate req now st).2.providerCalls = st.providerCalls + 1 ∧
    (processRequest gate req now st).1.id = st.nextId ∧
    (∀ s ∈ st.db, s.id < st.nextId →
      s.id ≠ (processRequest gate req now st).1.id) ∧
    findByKey (cacheKey req) (processRequest gate req now st).2.db =
      some (processRequest gate req now st).1 ∧
    (st.db.Pairwise (fun a b => a.cache_key ≠ b.cache_key) →
      (processRequest gate req now st).2.db.Pairwise
        (fun a b => a.cache_key ≠ b.cache_key)) := by
  have h1 : processRequest gate req now st =
      (generatedReport gate req now st,
        { db := upsertByKey (generatedReport gate req now st) st.db
          nextId := st.nextId + 1
          providerCalls := st.providerCalls + 1 }) := by
    unfold processRequest
    rw [hb]
    rfl
  rw [h1]
  refine ⟨rfl, rfl, ?_, ?_, ?_⟩
  · intro s hs hlt
    exact Nat.ne_of_lt hlt
  · exact findByKey_upsertByKey_self (generatedReport gate req now st) st.db
  · intro hdist
    exact upsertByKey_keys_distinct (generatedReport gate req now st) st.db hdist

/-- Request with cache bypass used in the C5 witness. -/
def bypassReq : ReportRequest :=
  { company_name := "acme"
    job_posting_id := some 3
    weights := [("성장성", 100)]
    bypass_cache := true
    cache_days := 7 }

/-- Stored row already holding the cache key of `bypassReq`, used in the
C5 witness to exhibit the last-write-wins overwrite. -/
def priorRow : StoredReport :=
  { id := 5
    company_name := "acme"
    quality_passed := true
    cache_key := cacheKey bypassReq
    cache_expires_at := 999999999 }

/-- C5 witness: one bypassing run against a store already holding the
colliding key: fresh id 6, a third provider call, and the key now
resolves to the new report rather than to the prior row. -/
theorem cache_bypass_regenerates_witness :
    (processRequest (fun _ => true) bypassReq 100
      ⟨[priorRow], 6, 2⟩).2.providerCalls = 3 ∧
    (processRequest (fun _ => true) bypassReq 100 ⟨[priorRow], 6, 2⟩).1.id = 6 ∧
    priorRow.id ≠
      (processRequest (fun _ => true) bypassReq 100 ⟨[priorRow], 6, 2⟩).1.id ∧
    findByKey (cacheKey bypassReq)
        (processRequest (fun _ => true) bypassReq 100 ⟨[priorRow], 6, 2⟩).2.db =
      some (processRequest (fun _ => true) bypassReq 100 ⟨[priorRow], 6, 2⟩).1 :=
  ⟨(cache_bypass_regenerates (fun _ => true) bypassReq 100 ⟨[priorRow], 6, 2⟩
      rfl).1,
    (cache_bypass_regenerates (fun _ => true) bypassReq 100 ⟨[priorRow], 6, 2⟩
      rfl).2.1,
    (cache_bypass_regenerates (fun _ => true) bypassReq 100 ⟨[priorRow], 6, 2⟩
      rfl).2.2.1 priorRow (by decide) (by decide),
    (cache_bypass_regenerates (fun _ => true) bypassReq 100 ⟨[priorRow], 6, 2⟩
      rfl).2.2.2.1⟩
